import Mathlib

/-!
Verification of the DevEvent repository's core logic: the event/booking
Mongoose models (`src/database/event.model.ts`, `src/database/booking.model.ts`)
and the connection cache (`src/lib/mongodb.ts`).

Strings are modelled as lists of Unicode code points (`Str := List Nat`),
matching JavaScript's view of a string as a sequence of code units; all the
characters the program manipulates are in the Basic Multilingual Plane, where
code units and code points coincide.
-/

/-- A JavaScript string, as a list of code points. -/
abbrev Str := List Nat

deriving instance DecidableEq for Except

/-- Convert a Lean string literal to its code-point list (ASCII payloads only
in this development); used to write the program's message constants. -/
def strCodes (s : String) : Str := s.data.map Char.toNat

/-- The characters matched by the regex class `\d`: ASCII digits 0-9. -/
def isDigit (n : Nat) : Bool := decide (48 ≤ n ∧ n ≤ 57)

/-- Numeric value of an ASCII digit code point. -/
def dval (n : Nat) : Nat := n - 48

/-- The characters matched by the regex class `\s` (also the set removed by
`String.prototype.trim`): space, tab, line terminators, and the Unicode
whitespace code points. -/
def isSpaceRe (n : Nat) : Bool :=
  decide (n = 32 ∨ (9 ≤ n ∧ n ≤ 13) ∨ n = 160 ∨ n = 5760 ∨ (8192 ≤ n ∧ n ≤ 8202) ∨
    n = 8232 ∨ n = 8233 ∨ n = 8239 ∨ n = 8287 ∨ n = 12288 ∨ n = 65279)

/-- Digit-string helper, structurally recursive on a fuel argument so the
kernel can evaluate it; `fuel ≥ n` always suffices since `n / 10 < n`. -/
def toDecAux : Nat → Nat → Str
  | 0, n => [48 + n % 10]
  | fuel + 1, n => if n < 10 then [48 + n] else toDecAux fuel (n / 10) ++ [48 + n % 10]

/-- JavaScript `Number.prototype.toString()` for a natural number: its decimal
digit string. -/
def toDec (n : Nat) : Str := toDecAux n n

/-- JavaScript `String.prototype.padStart(k, "0")`: left-pad with zeros up to
length `k`. -/
def padStart (k : Nat) (s : Str) : Str := List.replicate (k - s.length) 48 ++ s

/-- `padStart(2, "0")`, the padding used by `normalizeTime`. -/
def padStart2 (s : Str) : Str := padStart 2 s

/-- JavaScript `String.prototype.trim()`: strip leading and trailing
whitespace. -/
def trim (s : Str) : Str :=
  ((s.dropWhile isSpaceRe).reverse.dropWhile isSpaceRe).reverse

/-- Recognizer for the suffix `(AM|PM)$` of the case-insensitive 12-hour regex
`/^(\d{1,2}):(\d{2})\s*(AM|PM)$/i` in `normalizeTime`
(src/database/event.model.ts:156). Returns the captured hour, the minutes
substring verbatim, and whether the period capture (uppercased) is `PM`. -/
def ampmTail (h : Nat) (mins : Str) : Str → Option (Nat × Str × Bool)
  | [p1, p2] =>
    if (p1 == 65 || p1 == 97) && (p2 == 77 || p2 == 109) then some (h, mins, false)
    else if (p1 == 80 || p1 == 112) && (p2 == 77 || p2 == 109) then some (h, mins, true)
    else none
  | _ => none

/-- Recognizer for `:(\d{2})\s*(AM|PM)$` after the hour digits of the 12-hour
regex in `normalizeTime`. -/
def colonTail12 (h : Nat) : Str → Option (Nat × Str × Bool)
  | 58 :: m1 :: m2 :: rest =>
    if isDigit m1 && isDigit m2 then ampmTail h [m1, m2] (rest.dropWhile isSpaceRe)
    else none
  | _ => none

/-- `timeStr.match(/^(\d{1,2}):(\d{2})\s*(AM|PM)$/i)` from `normalizeTime`
(src/database/event.model.ts:156-157), with the captures it produces: parsed
hour (`parseInt(match[1], 10)`), minutes substring (`match[2]`), and whether
`match[3].toUpperCase() === "PM"`. The regex's greedy `\d{1,2}` is
deterministic here because the hour digits must be followed by `:`. -/
def match12Hour (s : Str) : Option (Nat × Str × Bool) :=
  match s with
  | d1 :: rest =>
    if isDigit d1 then
      match rest with
      | d2 :: rest2 =>
        if isDigit d2 then colonTail12 (dval d1 * 10 + dval d2) rest2
        else colonTail12 (dval d1) rest
      | [] => none
    else none
  | [] => none

/-- Recognizer for `:(\d{2})$` after the hour digits of the 24-hour regex
`/^(\d{1,2}):(\d{2})$/` in `normalizeTime` (src/database/event.model.ts:171). -/
def colonTail24 (h : Nat) : Str → Option (Nat × Nat)
  | [58, m1, m2] =>
    if isDigit m1 && isDigit m2 then some (h, dval m1 * 10 + dval m2) else none
  | _ => none

/-- `timeStr.match(/^(\d{1,2}):(\d{2})$/)` from `normalizeTime`
(src/database/event.model.ts:171-172), with the parsed hour and minutes
(`parseInt(match[1], 10)`, `parseInt(match[2], 10)`). -/
def match24Hour (s : Str) : Option (Nat × Nat) :=
  match s with
  | d1 :: rest =>
    if isDigit d1 then
      match rest with
      | d2 :: rest2 =>
        if isDigit d2 then colonTail24 (dval d1 * 10 + dval d2) rest2
        else colonTail24 (dval d1) rest
      | [] => none
    else none
  | [] => none

/-- Error message thrown by `normalizeTime` when the 24-hour match is out of
range (src/database/event.model.ts:179). -/
def timeRangeMsg : Str := strCodes "Invalid time. Hours must be 0-23 and minutes 0-59."

/-- Error message thrown by `normalizeTime` when neither regex matches
(src/database/event.model.ts:185). -/
def timeFormatMsg : Str := strCodes "Invalid time format. Use HH:MM or HH:MM AM/PM."

/-- `normalizeTime` from src/database/event.model.ts:152-186, translated
statement by statement: trim the input; try the 12-hour regex and, on a match,
apply the two sequential hour adjustments (`PM && hours !== 12 → +12`,
`AM && hours === 12 → 0`) and emit the padded hour with the minutes capture
verbatim; otherwise try the 24-hour regex, range-check hours/minutes, and emit
both zero-padded; otherwise throw the format error. A thrown error is modelled
as `Except.error`. -/
def normalizeTime (s : Str) : Except Str Str :=
  let t := trim s
  match match12Hour t with
  | some (h, mins, isPM) =>
    let h1 := if isPM && h != 12 then h + 12 else h
    let h2 := if !isPM && h1 == 12 then 0 else h1
    Except.ok (padStart2 (toDec h2) ++ 58 :: mins)
  | none =>
    match match24Hour t with
    | some (h, m) =>
      if h > 23 || m > 59 then Except.error timeRangeMsg
      else Except.ok (padStart2 (toDec h) ++ 58 :: padStart2 (toDec m))
    | none => Except.error timeFormatMsg

example : normalizeTime (strCodes "12:00 AM") = Except.ok (strCodes "00:00") := by decide
example : normalizeTime (strCodes "12:00 PM") = Except.ok (strCodes "12:00") := by decide
example : normalizeTime (strCodes "1:05 PM") = Except.ok (strCodes "13:05") := by decide
example : normalizeTime (strCodes "11:59 pm") = Except.ok (strCodes "23:59") := by decide
example : normalizeTime (strCodes "9:5") = Except.error timeFormatMsg := by decide
example : normalizeTime (strCodes "25:00") = Except.error timeRangeMsg := by decide
example : normalizeTime (strCodes "abc") = Except.error timeFormatMsg := by decide
example : normalizeTime (strCodes "13:00 AM") = Except.ok (strCodes "13:00") := by decide
example : normalizeTime (strCodes "  7:30  ") = Except.ok (strCodes "07:30") := by decide

theorem toDecAux_small (fuel n : Nat) (h : n < 10) : toDecAux fuel n = [48 + n] := by
  cases fuel with
  | zero => simp [toDecAux]; omega
  | succ f => simp [toDecAux, h]

theorem toDec_small (n : Nat) (h : n < 10) : toDec n = [48 + n] :=
  toDecAux_small n n h

theorem toDecAux_two (fuel n : Nat) (hf : 1 ≤ fuel) (h1 : 10 ≤ n) (h2 : n ≤ 99) :
    toDecAux fuel n = [48 + n / 10, 48 + n % 10] := by
  cases fuel with
  | zero => omega
  | succ f =>
    have hn : ¬ n < 10 := by omega
    simp only [toDecAux, if_neg hn]
    rw [toDecAux_small f (n / 10) (by omega)]
    rfl

theorem toDec_two (n : Nat) (h1 : 10 ≤ n) (h2 : n ≤ 99) :
    toDec n = [48 + n / 10, 48 + n % 10] :=
  toDecAux_two n n (by omega) h1 h2

theorem pad2_list (m : Nat) (hm : m ≤ 99) :
    padStart2 (toDec m) = [48 + m / 10, 48 + m % 10] := by
  by_cases h : m < 10
  · rw [toDec_small m h]
    simp [padStart2, padStart]
    omega
  · rw [toDec_two m (by omega) hm]
    simp [padStart2, padStart]

theorem trim_eq_of_ends (l : Str)
    (h1 : ∀ c, l.head? = some c → isSpaceRe c = false)
    (h2 : ∀ c, l.getLast? = some c → isSpaceRe c = false) :
    trim l = l := by
  have e1 : l.dropWhile isSpaceRe = l := by
    cases l with
    | nil => rfl
    | cons a t =>
      have ha := h1 a rfl
      simp [List.dropWhile_cons, ha]
  rw [trim, e1]
  cases hr : l.reverse with
  | nil =>
    have : l = [] := by simpa using congrArg List.reverse hr
    simp [this]
  | cons b rb =>
    have hb : isSpaceRe b = false := by
      apply h2
      rw [← List.head?_reverse, hr]
      rfl
    have hb' : ¬ (isSpaceRe b = true) := by simp [hb]
    rw [List.dropWhile_cons_of_neg hb', ← hr, List.reverse_reverse]

theorem match12Hour_one_digit (a : Nat) (ha : isDigit a = true) (t : Str) :
    match12Hour (a :: 58 :: t) = colonTail12 (dval a) (58 :: t) := by
  simp [match12Hour, ha, show isDigit 58 = false from rfl]

theorem match12Hour_two_digit (a b : Nat) (ha : isDigit a = true) (hb : isDigit b = true)
    (t : Str) :
    match12Hour (a :: b :: 58 :: t) = colonTail12 (dval a * 10 + dval b) (58 :: t) := by
  simp [match12Hour, ha, hb]

theorem colonTail12_sp (h m1 m2 p1 p2 : Nat) (hm1 : isDigit m1 = true)
    (hm2 : isDigit m2 = true) (hp1 : isSpaceRe p1 = false) :
    colonTail12 h (58 :: m1 :: m2 :: [32, p1, p2]) = ampmTail h [m1, m2] [p1, p2] := by
  simp [colonTail12, hm1, hm2, List.dropWhile_cons, hp1,
    show isSpaceRe 32 = true from rfl]

theorem ampmTail_eval (h : Nat) (mins : Str) (p1 p2 : Nat) (pm : Bool)
    (hp1 : p1 = (if pm then 80 else 65) ∨ p1 = (if pm then 112 else 97))
    (hp2 : p2 = 77 ∨ p2 = 109) :
    ampmTail h mins [p1, p2] = some (h, mins, pm) := by
  cases pm <;> rcases hp1 with rfl | rfl <;> rcases hp2 with rfl | rfl <;> simp [ampmTail]

/-- The 12-to-24-hour mapping the specification describes: 12 AM maps to 0,
12 PM stays 12, PM hours 1-11 gain 12, other AM hours are unchanged. -/
def to24 (h : Nat) (pm : Bool) : Nat :=
  if pm then (if h = 12 then 12 else h + 12) else (if h = 12 then 0 else h)

theorem normalizeTime_eval12 (s : Str) (h : Nat) (mins : Str) (pm : Bool)
    (ht : match12Hour (trim s) = some (h, mins, pm)) :
    normalizeTime s = Except.ok (padStart2 (toDec (to24 h pm)) ++ 58 :: mins) := by
  simp only [normalizeTime, ht]
  cases pm <;> by_cases h12 : h = 12 <;> simp [to24, h12]

theorem trim_sandwich (a z : Nat) (mid : Str) (ha : isSpaceRe a = false)
    (hz : isSpaceRe z = false) : trim (a :: (mid ++ [z])) = a :: (mid ++ [z]) := by
  apply trim_eq_of_ends
  · intro c hc
    simp only [List.head?_cons, Option.some.injEq] at hc
    rw [← hc]
    exact ha
  · intro c hc
    rw [show a :: (mid ++ [z]) = (a :: mid) ++ [z] by simp] at hc
    rw [List.getLast?_concat] at hc
    simp only [Option.some.injEq] at hc
    rw [← hc]
    exact hz

/-- C2: for every valid 12-hour input with hour 1-12 (written with one or two
digits) and minutes 00-59, followed by a space and a case-insensitive AM/PM
suffix, `normalizeTime` returns the zero-padded 24-hour equivalent: 12 AM maps
to hour 0, 12 PM stays 12, PM hours 1-11 gain 12. -/
theorem normalizeTime_12hour_correct (h m p1 p2 : Nat) (pm : Bool) (hs : Str)
    (hh1 : 1 ≤ h) (hh2 : h ≤ 12) (hm : m ≤ 59)
    (hhs : hs = toDec h ∨ hs = padStart2 (toDec h))
    (hp1 : p1 = (if pm then 80 else 65) ∨ p1 = (if pm then 112 else 97))
    (hp2 : p2 = 77 ∨ p2 = 109) :
    normalizeTime (hs ++ 58 :: padStart2 (toDec m) ++ [32, p1, p2])
      = Except.ok (padStart2 (toDec (to24 h pm)) ++ 58 :: padStart2 (toDec m)) := by
  have hpadm : padStart2 (toDec m) = [48 + m / 10, 48 + m % 10] := pad2_list m (by omega)
  have hm1 : isDigit (48 + m / 10) = true := by simp [isDigit]; omega
  have hm2 : isDigit (48 + m % 10) = true := by simp [isDigit]; omega
  have hp1v : p1 = 80 ∨ p1 = 65 ∨ p1 = 112 ∨ p1 = 97 := by
    rcases hp1 with e | e <;> cases pm <;> simp at e <;> omega
  have hp1f : isSpaceRe p1 = false := by
    rcases hp1v with rfl | rfl | rfl | rfl <;> rfl
  have hp2f : isSpaceRe p2 = false := by rcases hp2 with rfl | rfl <;> rfl
  have hamp : ampmTail h [48 + m / 10, 48 + m % 10] [p1, p2]
      = some (h, [48 + m / 10, 48 + m % 10], pm) :=
    ampmTail_eval h _ p1 p2 pm hp1 hp2
  have hcolon : colonTail12 h (58 :: (48 + m / 10) :: (48 + m % 10) :: [32, p1, p2])
      = some (h, [48 + m / 10, 48 + m % 10], pm) := by
    rw [colonTail12_sp h _ _ p1 p2 hm1 hm2 hp1f]
    exact hamp
  have hhs2 : (hs = [48 + h] ∧ h < 10) ∨ hs = [48 + h / 10, 48 + h % 10] := by
    rcases hhs with rfl | rfl
    · by_cases h10 : h < 10
      · exact Or.inl ⟨toDec_small h h10, h10⟩
      · exact Or.inr (toDec_two h (by omega) (by omega))
    · exact Or.inr (pad2_list h (by omega))
  rw [hpadm]
  rcases hhs2 with ⟨rfl, h10⟩ | rfl
  · apply normalizeTime_eval12
    have heq : ([48 + h] : Str) ++ 58 :: [48 + m / 10, 48 + m % 10] ++ [32, p1, p2]
        = (48 + h) :: ([58, 48 + m / 10, 48 + m % 10, 32, p1] ++ [p2]) := by simp
    rw [heq, trim_sandwich _ _ _ (by simp [isSpaceRe]; omega) hp2f, ← heq]
    have hd : isDigit (48 + h) = true := by simp [isDigit]; omega
    have heq2 : ([48 + h] : Str) ++ 58 :: [48 + m / 10, 48 + m % 10] ++ [32, p1, p2]
        = (48 + h) :: 58 :: ((48 + m / 10) :: (48 + m % 10) :: [32, p1, p2]) := by simp
    rw [heq2, match12Hour_one_digit _ hd, show dval (48 + h) = h by simp [dval]]
    exact hcolon
  · apply normalizeTime_eval12
    have heq : ([48 + h / 10, 48 + h % 10] : Str) ++ 58 :: [48 + m / 10, 48 + m % 10]
          ++ [32, p1, p2]
        = (48 + h / 10) :: ([48 + h % 10, 58, 48 + m / 10, 48 + m % 10, 32, p1] ++ [p2]) := by
      simp
    rw [heq, trim_sandwich _ _ _ (by simp [isSpaceRe]; omega) hp2f, ← heq]
    have hd1 : isDigit (48 + h / 10) = true := by simp [isDigit]; omega
    have hd2 : isDigit (48 + h % 10) = true := by simp [isDigit]; omega
    have heq2 : ([48 + h / 10, 48 + h % 10] : Str) ++ 58 :: [48 + m / 10, 48 + m % 10]
          ++ [32, p1, p2]
        = (48 + h / 10) :: (48 + h % 10) :: 58
            :: ((48 + m / 10) :: (48 + m % 10) :: [32, p1, p2]) := by simp
    rw [heq2, match12Hour_two_digit _ _ hd1 hd2,
      show dval (48 + h / 10) * 10 + dval (48 + h % 10) = h by simp [dval]; omega]
    exact hcolon

/-- C2 witness: the four example conversions listed by the specification,
obtained from `normalizeTime_12hour_correct` at concrete inputs. -/
theorem normalizeTime_12hour_correct_witness :
    normalizeTime (strCodes "1:05 PM") = Except.ok (strCodes "13:05")
  ∧ normalizeTime (strCodes "12:00 AM") = Except.ok (strCodes "00:00")
  ∧ normalizeTime (strCodes "12:00 PM") = Except.ok (strCodes "12:00")
  ∧ normalizeTime (strCodes "11:59 PM") = Except.ok (strCodes "23:59") := by
  refine ⟨?_, ?_, ?_, ?_⟩
  · have e := normalizeTime_12hour_correct 1 5 80 77 true (toDec 1) (by decide) (by decide)
      (by decide) (Or.inl rfl) (Or.inl (by decide)) (Or.inl rfl)
    rw [show strCodes "1:05 PM" = toDec 1 ++ 58 :: padStart2 (toDec 5) ++ [32, 80, 77]
      by decide, e]
    decide
  · have e := normalizeTime_12hour_correct 12 0 65 77 false (toDec 12) (by decide) (by decide)
      (by decide) (Or.inl rfl) (Or.inl (by decide)) (Or.inl rfl)
    rw [show strCodes "12:00 AM" = toDec 12 ++ 58 :: padStart2 (toDec 0) ++ [32, 65, 77]
      by decide, e]
    decide
  · have e := normalizeTime_12hour_correct 12 0 80 77 true (toDec 12) (by decide) (by decide)
      (by decide) (Or.inl rfl) (Or.inl (by decide)) (Or.inl rfl)
    rw [show strCodes "12:00 PM" = toDec 12 ++ 58 :: padStart2 (toDec 0) ++ [32, 80, 77]
      by decide, e]
    decide
  · have e := normalizeTime_12hour_correct 11 59 80 77 true (toDec 11) (by decide) (by decide)
      (by decide) (Or.inl rfl) (Or.inl (by decide)) (Or.inl rfl)
    rw [show strCodes "11:59 PM" = toDec 11 ++ 58 :: padStart2 (toDec 59) ++ [32, 80, 77]
      by decide, e]
    decide

/-- C1 counterexample: the claim says a 12-hour-suffixed string with an
out-of-range hour such as `"13:00 AM"` is rejected with a validation error;
the code instead accepts it: the 12-hour regex branch performs no range check,
so `normalizeTime("13:00 AM")` returns `"13:00"`. -/
theorem normalizeTime_13_00_AM_accepted :
    normalizeTime (strCodes "13:00 AM") = Except.ok (strCodes "13:00") := by decide

/-- C1 (amended): inputs matching neither time regex are rejected with the
format error, and 24-hour-shaped inputs with hours outside 0-23 or minutes
outside 0-59 are rejected with the range error; but an input matching the
12-hour shape (any 1-2 digit hour, 2-digit minutes, AM/PM suffix) is accepted
without any range validation. -/
theorem normalizeTime_rejects (s : Str) :
    (match12Hour (trim s) = none → match24Hour (trim s) = none →
      normalizeTime s = Except.error timeFormatMsg)
  ∧ (∀ h m, match12Hour (trim s) = none → match24Hour (trim s) = some (h, m) →
      23 < h ∨ 59 < m → normalizeTime s = Except.error timeRangeMsg)
  ∧ (∀ h mins pm, match12Hour (trim s) = some (h, mins, pm) →
      ∃ out, normalizeTime s = Except.ok out) := by
  refine ⟨?_, ?_, ?_⟩
  · intro h1 h2
    simp [normalizeTime, h1, h2]
  · intro h m h1 h2 h3
    have hb : (decide (h > 23) || decide (m > 59)) = true := by
      rcases h3 with h3 | h3 <;> simp <;> omega
    simp [normalizeTime, h1, h2, hb]
  · intro h mins pm h1
    exact ⟨_, normalizeTime_eval12 s h mins pm h1⟩

/-- C1 witness: `"abc"` is rejected with the format error and `"25:00"` with
the range error, via `normalizeTime_rejects` at those inputs. -/
theorem normalizeTime_rejects_witness :
    normalizeTime (strCodes "abc") = Except.error timeFormatMsg
  ∧ normalizeTime (strCodes "25:00") = Except.error timeRangeMsg :=
  ⟨(normalizeTime_rejects (strCodes "abc")).1 (by decide) (by decide),
   (normalizeTime_rejects (strCodes "25:00")).2.1 25 0 (by decide) (by decide) (by decide)⟩

/-- `String.prototype.toLowerCase()` restricted to the ASCII range: uppercase
letters A-Z map to a-z, every other code point is unchanged. (The regex class
`\w` below is ASCII-only, so non-ASCII case mappings cannot affect the slug.) -/
def toLowerCode (n : Nat) : Nat := if 65 ≤ n ∧ n ≤ 90 then n + 32 else n

/-- The regex class `\w`: ASCII digits, letters of either case, underscore. -/
def isWordChar (n : Nat) : Bool :=
  decide ((48 ≤ n ∧ n ≤ 57) ∨ (65 ≤ n ∧ n ≤ 90) ∨ (97 ≤ n ∧ n ≤ 122) ∨ n = 95)

/-- The characters kept by `.replace(/[^\w\s-]/g, "")` in `generateSlug`
(src/database/event.model.ts:127): word characters, whitespace, hyphen. -/
def keepChar (n : Nat) : Bool := isWordChar n || isSpaceRe n || n == 45

/-- `.replace(/\s+/g, "-")` (src/database/event.model.ts:128): each maximal
run of whitespace becomes a single hyphen (emitted at the last character of
the run). -/
def squashSpaces : Str → Str
  | [] => []
  | [c] => if isSpaceRe c then [45] else [c]
  | a :: b :: r =>
    if isSpaceRe a then
      (if isSpaceRe b then squashSpaces (b :: r) else 45 :: squashSpaces (b :: r))
    else a :: squashSpaces (b :: r)

/-- The third `.replace` of `generateSlug` (src/database/event.model.ts:129),
whose pattern is one-or-more hyphens, global: each maximal run of hyphens
becomes a single hyphen. -/
def squashHyphens : Str → Str
  | [] => []
  | [c] => [c]
  | a :: b :: r =>
    if a == 45 then
      (if b == 45 then squashHyphens (b :: r) else 45 :: squashHyphens (b :: r))
    else a :: squashHyphens (b :: r)

/-- The hyphen character class used by `/^-+|-+$/g`. -/
def isHyphen (n : Nat) : Bool := n == 45

/-- Drop the longest suffix of characters satisfying `p`. -/
def dropTrailing (p : Nat → Bool) (l : Str) : Str := (l.reverse.dropWhile p).reverse

/-- `.replace(/^-+|-+$/g, "")` (src/database/event.model.ts:130): strip the
leading and trailing runs of hyphens. -/
def stripEdgeHyphens (l : Str) : Str := dropTrailing isHyphen (l.dropWhile isHyphen)

/-- `generateSlug` from src/database/event.model.ts:123-131: lowercase, trim,
remove characters outside `[\w\s-]`, collapse whitespace runs to single
hyphens, collapse hyphen runs, strip leading/trailing hyphens. -/
def generateSlug (t : Str) : Str :=
  stripEdgeHyphens (squashHyphens (squashSpaces ((trim (t.map toLowerCode)).filter keepChar)))

example : generateSlug (strCodes "Hello World!") = strCodes "hello-world" := by decide
example : generateSlug (strCodes " -- A  B--C_9 ") = strCodes "a-b-c_9" := by decide
example : generateSlug (strCodes "!!!") = strCodes "" := by decide
example : generateSlug (strCodes "  Vue & React: Summit 2025!  ")
    = strCodes "vue-react-summit-2025" := by decide

/-- Induction on lists that mirrors the two-leading-element pattern match of
`squashSpaces`/`squashHyphens`. -/
def twoStepInduction {motive : Str → Prop} (h0 : motive [])
    (h1 : ∀ c, motive [c])
    (h2 : ∀ a b r, motive (b :: r) → motive (a :: b :: r)) :
    ∀ l, motive l
  | [] => h0
  | [c] => h1 c
  | a :: b :: r => h2 a b r (twoStepInduction h0 h1 h2 (b :: r))

theorem mem_squashSpaces (c : Nat) (l : Str) (h : c ∈ squashSpaces l) :
    c = 45 ∨ (c ∈ l ∧ isSpaceRe c = false) := by
  induction l using twoStepInduction with
  | h0 => simp [squashSpaces] at h
  | h1 d =>
    by_cases hd : isSpaceRe d = true
    · simp [squashSpaces, hd] at h
      exact Or.inl h
    · simp [squashSpaces, hd] at h
      subst h
      exact Or.inr (by simp_all)
  | h2 a b r ih =>
    by_cases ha : isSpaceRe a = true
    · by_cases hb : isSpaceRe b = true
      · simp only [squashSpaces, ha, hb, if_true] at h
        rcases ih h with h' | ⟨h1, h2⟩
        · exact Or.inl h'
        · exact Or.inr ⟨List.mem_cons_of_mem a h1, h2⟩
      · simp only [squashSpaces, ha, hb, if_true, Bool.false_eq_true, if_false] at h
        rcases List.mem_cons.mp h with rfl | h'
        · exact Or.inl rfl
        · rcases ih h' with h'' | ⟨h1, h2⟩
          · exact Or.inl h''
          · exact Or.inr ⟨List.mem_cons_of_mem a h1, h2⟩
    · simp only [squashSpaces, ha, Bool.false_eq_true, if_false] at h
      rcases List.mem_cons.mp h with rfl | h'
      · exact Or.inr ⟨List.mem_cons_self _ _, by simpa using ha⟩
      · rcases ih h' with h'' | ⟨h1, h2⟩
        · exact Or.inl h''
        · exact Or.inr ⟨List.mem_cons_of_mem a h1, h2⟩

theorem mem_squashHyphens (c : Nat) (l : Str) (h : c ∈ squashHyphens l) : c ∈ l := by
  induction l using twoStepInduction with
  | h0 => simp [squashHyphens] at h
  | h1 d => simpa [squashHyphens] using h
  | h2 a b r ih =>
    by_cases ha : a = 45
    · subst ha
      by_cases hb : b = 45
      · subst hb
        simp only [squashHyphens, beq_self_eq_true, if_true] at h
        exact List.mem_cons_of_mem _ (ih h)
      · have hb' : (b == 45) = false := by simp [hb]
        simp only [squashHyphens, beq_self_eq_true, hb', if_true, Bool.false_eq_true,
          if_false] at h
        rcases List.mem_cons.mp h with rfl | h'
        · exact List.mem_cons_self _ _
        · exact List.mem_cons_of_mem _ (ih h')
    · have ha' : (a == 45) = false := by simp [ha]
      simp only [squashHyphens, ha', Bool.false_eq_true, if_false] at h
      rcases List.mem_cons.mp h with rfl | h'
      · exact List.mem_cons_self _ _
      · exact List.mem_cons_of_mem _ (ih h')

theorem head?_squashHyphens (l : Str) : (squashHyphens l).head? = l.head? := by
  induction l using twoStepInduction with
  | h0 => rfl
  | h1 d => rfl
  | h2 a b r ih =>
    by_cases ha : a = 45
    · subst ha
      by_cases hb : b = 45
      · subst hb
        simp only [squashHyphens, beq_self_eq_true, if_true]
        rw [ih]
        rfl
      · have hb' : (b == 45) = false := by simp [hb]
        simp [squashHyphens, hb']
    · have ha' : (a == 45) = false := by simp [ha]
      simp [squashHyphens, ha']

/-- A well-formed slug character: lowercase ASCII letter, digit, underscore,
or hyphen (the "lowercase word characters and hyphens" of the claim). -/
def isSlugChar (n : Nat) : Bool :=
  decide ((97 ≤ n ∧ n ≤ 122) ∨ (48 ≤ n ∧ n ≤ 57) ∨ n = 95 ∨ n = 45)

/-- A string with no run of two or more consecutive hyphens. -/
def noDoubleHyphen : Str → Bool
  | [] => true
  | [_] => true
  | a :: b :: r => !(a == 45 && b == 45) && noDoubleHyphen (b :: r)

theorem ndh_cons (a : Nat) (l : Str) (h : noDoubleHyphen (a :: l) = true) :
    noDoubleHyphen l = true := by
  cases l with
  | nil => rfl
  | cons b r =>
    simp only [noDoubleHyphen, Bool.and_eq_true] at h
    exact h.2

theorem ndh_append_left (t l : Str) (h : noDoubleHyphen (t ++ l) = true) :
    noDoubleHyphen l = true := by
  induction t with
  | nil => exact h
  | cons a t' ih => exact ih (ndh_cons a (t' ++ l) h)

theorem ndh_append_right (l t : Str) (h : noDoubleHyphen (l ++ t) = true) :
    noDoubleHyphen l = true := by
  induction l with
  | nil => rfl
  | cons a l' ih =>
    cases l' with
    | nil => rfl
    | cons b r =>
      simp only [List.cons_append, noDoubleHyphen, Bool.and_eq_true] at h ⊢
      exact ⟨h.1, by simpa using ih (by simpa using h.2)⟩

theorem ndh_squashHyphens (l : Str) : noDoubleHyphen (squashHyphens l) = true := by
  induction l using twoStepInduction with
  | h0 => rfl
  | h1 d => rfl
  | h2 a b r ih =>
    by_cases ha : a = 45
    · subst ha
      by_cases hb : b = 45
      · subst hb
        simpa [squashHyphens] using ih
      · have hb' : (b == 45) = false := by simp [hb]
        simp only [squashHyphens, beq_self_eq_true, hb', if_true, Bool.false_eq_true, if_false]
        cases hsq : squashHyphens (b :: r) with
        | nil => rfl
        | cons x xs =>
          have hx : x = b := by
            have hh := head?_squashHyphens (b :: r)
            rw [hsq] at hh
            simpa using hh
          subst hx
          simp only [noDoubleHyphen, Bool.and_eq_true, Bool.not_eq_true']
          constructor
          · simp [hb']
          · rw [← hsq]
            exact ih
    · have ha' : (a == 45) = false := by simp [ha]
      simp only [squashHyphens, ha', Bool.false_eq_true, if_false]
      cases hsq : squashHyphens (b :: r) with
      | nil => rfl
      | cons x xs =>
        simp only [noDoubleHyphen, Bool.and_eq_true, Bool.not_eq_true']
        constructor
        · simp [ha']
        · rw [← hsq]
          exact ih

theorem dropWhileAppend (p : Nat → Bool) (l : Str) : ∃ t, t ++ l.dropWhile p = l := by
  induction l with
  | nil => exact ⟨[], rfl⟩
  | cons a l' ih =>
    by_cases ha : p a = true
    · obtain ⟨t, ht⟩ := ih
      exact ⟨a :: t, by simp [List.dropWhile_cons, ha, ht]⟩
    · exact ⟨[], by simp [List.dropWhile_cons, ha]⟩

theorem dropTrailingAppend (p : Nat → Bool) (l : Str) : ∃ t, dropTrailing p l ++ t = l := by
  obtain ⟨t, ht⟩ := dropWhileAppend p l.reverse
  refine ⟨t.reverse, ?_⟩
  have hrev := congrArg List.reverse ht
  simpa [dropTrailing] using hrev

theorem head?_dropWhile_neg (p : Nat → Bool) (l : Str) (c : Nat)
    (h : (l.dropWhile p).head? = some c) : p c = false := by
  induction l with
  | nil => simp at h
  | cons a l' ih =>
    by_cases ha : p a = true
    · rw [List.dropWhile_cons_of_pos ha] at h
      exact ih h
    · rw [List.dropWhile_cons_of_neg ha] at h
      simp only [List.head?_cons, Option.some.injEq] at h
      subst h
      simpa using ha

theorem head?_append_of_some (l t : Str) (c : Nat) (h : l.head? = some c) :
    (l ++ t).head? = some c := by
  cases l with
  | nil => simp at h
  | cons a l' => simpa using h

theorem mem_trim (c : Nat) (l : Str) (h : c ∈ trim l) : c ∈ l := by
  simp only [trim] at h
  rw [List.mem_reverse] at h
  obtain ⟨t, ht⟩ := dropWhileAppend isSpaceRe (l.dropWhile isSpaceRe).reverse
  have h2 : c ∈ (l.dropWhile isSpaceRe).reverse := by
    rw [← ht]
    exact List.mem_append_right t h
  rw [List.mem_reverse] at h2
  obtain ⟨t2, ht2⟩ := dropWhileAppend isSpaceRe l
  rw [← ht2]
  exact List.mem_append_right t2 h2

theorem mem_stripEdgeHyphens (c : Nat) (l : Str) (h : c ∈ stripEdgeHyphens l) : c ∈ l := by
  simp only [stripEdgeHyphens] at h
  obtain ⟨t, ht⟩ := dropTrailingAppend isHyphen (l.dropWhile isHyphen)
  have h2 : c ∈ l.dropWhile isHyphen := by
    rw [← ht]
    exact List.mem_append_left _ h
  obtain ⟨t2, ht2⟩ := dropWhileAppend isHyphen l
  rw [← ht2]
  exact List.mem_append_right t2 h2

theorem toLowerCode_not_upper (n : Nat) : ¬(65 ≤ toLowerCode n ∧ toLowerCode n ≤ 90) := by
  simp only [toLowerCode]
  split <;> omega

theorem slug_mem (t : Str) (c : Nat) (h : c ∈ generateSlug t) : isSlugChar c = true := by
  simp only [generateSlug] at h
  have h1 := mem_stripEdgeHyphens c _ h
  have h2 := mem_squashHyphens c _ h1
  rcases mem_squashSpaces c _ h2 with rfl | ⟨h3, hns⟩
  · rfl
  · have h4 := List.mem_filter.mp h3
    have h5 := mem_trim c _ h4.1
    obtain ⟨d, _, hdc⟩ := List.mem_map.mp h5
    have h6 := toLowerCode_not_upper d
    rw [hdc] at h6
    have hk := h4.2
    simp only [keepChar, Bool.or_eq_true, beq_iff_eq] at hk
    rcases hk with (hk | hk) | rfl
    · simp only [isWordChar, decide_eq_true_eq] at hk
      simp only [isSlugChar, decide_eq_true_eq]
      omega
    · simp [hns] at hk
    · rfl

theorem slug_head (t : Str) (c : Nat) (h : (generateSlug t).head? = some c) : c ≠ 45 := by
  simp only [generateSlug, stripEdgeHyphens] at h
  obtain ⟨tt, htt⟩ := dropTrailingAppend isHyphen
    ((squashHyphens (squashSpaces ((trim (t.map toLowerCode)).filter keepChar))).dropWhile
      isHyphen)
  have h2 : ((squashHyphens (squashSpaces ((trim (t.map toLowerCode)).filter
      keepChar))).dropWhile isHyphen).head? = some c := by
    rw [← htt]
    exact head?_append_of_some _ _ _ h
  have h3 := head?_dropWhile_neg isHyphen _ c h2
  simpa [isHyphen] using h3

theorem slug_last (t : Str) (c : Nat) (h : (generateSlug t).getLast? = some c) : c ≠ 45 := by
  simp only [generateSlug, stripEdgeHyphens, dropTrailing] at h
  rw [List.getLast?_reverse] at h
  have h3 := head?_dropWhile_neg isHyphen _ c h
  simpa [isHyphen] using h3

theorem slug_ndh (t : Str) : noDoubleHyphen (generateSlug t) = true := by
  have h1 := ndh_squashHyphens (squashSpaces ((trim (t.map toLowerCode)).filter keepChar))
  simp only [generateSlug, stripEdgeHyphens]
  obtain ⟨t1, ht1⟩ := dropWhileAppend isHyphen
    (squashHyphens (squashSpaces ((trim (t.map toLowerCode)).filter keepChar)))
  have h2 : noDoubleHyphen ((squashHyphens (squashSpaces ((trim (t.map toLowerCode)).filter
      keepChar))).dropWhile isHyphen) = true := by
    apply ndh_append_left t1
    rw [ht1]
    exact h1
  obtain ⟨t2, ht2⟩ := dropTrailingAppend isHyphen
    ((squashHyphens (squashSpaces ((trim (t.map toLowerCode)).filter keepChar))).dropWhile
      isHyphen)
  apply ndh_append_right _ t2
  rw [ht2]
  exact h2

theorem map_id_of_fixed (f : Nat → Nat) (l : Str) (h : ∀ c ∈ l, f c = c) : l.map f = l := by
  induction l with
  | nil => rfl
  | cons a l' ih =>
    rw [List.map_cons, h a (List.mem_cons_self a _),
      ih (fun c hc => h c (List.mem_cons_of_mem a hc))]

theorem dropWhile_eq_self_of_all (p : Nat → Bool) (l : Str) (h : ∀ c ∈ l, p c = false) :
    l.dropWhile p = l := by
  cases l with
  | nil => rfl
  | cons a l' => exact List.dropWhile_cons_of_neg (by simp [h a (List.mem_cons_self a _)])

theorem trim_eq_self_of_all (l : Str) (h : ∀ c ∈ l, isSpaceRe c = false) : trim l = l := by
  rw [trim, dropWhile_eq_self_of_all _ _ h, dropWhile_eq_self_of_all, List.reverse_reverse]
  intro c hc
  exact h c (List.mem_reverse.mp hc)

theorem squashSpaces_id (l : Str) (h : ∀ c ∈ l, isSpaceRe c = false) : squashSpaces l = l := by
  induction l using twoStepInduction with
  | h0 => rfl
  | h1 d => simp [squashSpaces, h d (List.mem_cons_self d _)]
  | h2 a b r ih =>
    have ha := h a (List.mem_cons_self a _)
    simp only [squashSpaces, ha, Bool.false_eq_true, if_false]
    rw [ih (fun c hc => h c (List.mem_cons_of_mem a hc))]

theorem squashHyphens_id (l : Str) (h : noDoubleHyphen l = true) : squashHyphens l = l := by
  induction l using twoStepInduction with
  | h0 => rfl
  | h1 d => rfl
  | h2 a b r ih =>
    have hrest : noDoubleHyphen (b :: r) = true := ndh_cons a _ h
    by_cases ha : a = 45
    · subst ha
      have hb' : (b == 45) = false := by
        simp only [noDoubleHyphen, Bool.and_eq_true, Bool.not_eq_true'] at h
        simpa using h.1
      simp only [squashHyphens, beq_self_eq_true, hb', if_true, Bool.false_eq_true, if_false]
      rw [ih hrest]
    · have ha' : (a == 45) = false := by simp [ha]
      simp only [squashHyphens, ha', Bool.false_eq_true, if_false]
      rw [ih hrest]

theorem dropWhile_eq_self_of_head (p : Nat → Bool) (l : Str)
    (h : ∀ c, l.head? = some c → p c = false) : l.dropWhile p = l := by
  cases l with
  | nil => rfl
  | cons a l' => exact List.dropWhile_cons_of_neg (by simp [h a rfl])

theorem stripEdgeHyphens_id (l : Str) (hh : ∀ c, l.head? = some c → c ≠ 45)
    (hl : ∀ c, l.getLast? = some c → c ≠ 45) : stripEdgeHyphens l = l := by
  rw [stripEdgeHyphens,
    dropWhile_eq_self_of_head _ _ (fun c hc => by simpa [isHyphen] using hh c hc)]
  rw [dropTrailing, dropWhile_eq_self_of_head, List.reverse_reverse]
  intro c hc
  rw [List.head?_reverse] at hc
  simpa [isHyphen] using hl c hc

theorem generateSlug_fixed (l : Str) (hmem : ∀ c ∈ l, isSlugChar c = true)
    (hh : ∀ c, l.head? = some c → c ≠ 45)
    (hl : ∀ c, l.getLast? = some c → c ≠ 45)
    (hndh : noDoubleHyphen l = true) : generateSlug l = l := by
  have hlow : ∀ c ∈ l, toLowerCode c = c := by
    intro c hc
    have hs := hmem c hc
    simp only [isSlugChar, decide_eq_true_eq] at hs
    simp only [toLowerCode]
    split
    · omega
    · rfl
  have hnsp : ∀ c ∈ l, isSpaceRe c = false := by
    intro c hc
    have hs := hmem c hc
    simp only [isSlugChar, decide_eq_true_eq] at hs
    simp only [isSpaceRe, decide_eq_false_iff_not]
    omega
  have hkeep : ∀ c ∈ l, keepChar c = true := by
    intro c hc
    have hs := hmem c hc
    simp only [isSlugChar, decide_eq_true_eq] at hs
    by_cases h45 : c = 45
    · subst h45
      rfl
    · have hw : isWordChar c = true := by
        simp only [isWordChar, decide_eq_true_eq]
        omega
      simp [keepChar, hw]
  rw [generateSlug, map_id_of_fixed _ _ hlow, trim_eq_self_of_all _ hnsp,
    List.filter_eq_self.mpr hkeep, squashSpaces_id _ hnsp, squashHyphens_id _ hndh,
    stripEdgeHyphens_id _ hh hl]


/-- C3: for every non-empty title, the slug produced by `generateSlug`
contains only lowercase word characters and hyphens, starts and ends with a
non-hyphen, and contains no run of two or more consecutive hyphens. -/
theorem generateSlug_wellformed (t : Str) (_hne : t ≠ []) :
    (∀ c ∈ generateSlug t, isSlugChar c = true)
  ∧ (generateSlug t).head? ≠ some 45
  ∧ (generateSlug t).getLast? ≠ some 45
  ∧ noDoubleHyphen (generateSlug t) = true :=
  ⟨fun c hc => slug_mem t c hc,
   fun hc => slug_head t 45 hc rfl,
   fun hc => slug_last t 45 hc rfl,
   slug_ndh t⟩

/-- C3 witness: `generateSlug_wellformed` applied to the concrete title
`"Hello World!"`, whose slug is `"hello-world"`. -/
theorem generateSlug_wellformed_witness :
    (generateSlug (strCodes "Hello World!")).head? ≠ some 45
  ∧ generateSlug (strCodes "Hello World!") = strCodes "hello-world" :=
  ⟨(generateSlug_wellformed (strCodes "Hello World!") (by decide)).2.1, by decide⟩

/-- C10: `generateSlug` is idempotent: re-deriving a slug from an
already-derived slug leaves it unchanged. -/
theorem generateSlug_idempotent (t : Str) :
    generateSlug (generateSlug t) = generateSlug t :=
  generateSlug_fixed (generateSlug t) (slug_mem t) (slug_head t) (slug_last t) (slug_ndh t)

theorem toDecAux_three (fuel n : Nat) (hf : 2 ≤ fuel) (h1 : 100 ≤ n) (h2 : n ≤ 999) :
    toDecAux fuel n = [48 + n / 100, 48 + n / 10 % 10, 48 + n % 10] := by
  cases fuel with
  | zero => omega
  | succ f =>
    have hn : ¬ n < 10 := by omega
    simp only [toDecAux, if_neg hn]
    rw [toDecAux_two f (n / 10) (by omega) (by omega) (by omega)]
    have e1 : n / 10 / 10 = n / 100 := by omega
    simp [e1]

theorem toDecAux_four (fuel n : Nat) (hf : 3 ≤ fuel) (h1 : 1000 ≤ n) (h2 : n ≤ 9999) :
    toDecAux fuel n = [48 + n / 1000, 48 + n / 100 % 10, 48 + n / 10 % 10, 48 + n % 10] := by
  cases fuel with
  | zero => omega
  | succ f =>
    have hn : ¬ n < 10 := by omega
    simp only [toDecAux, if_neg hn]
    rw [toDecAux_three f (n / 10) (by omega) (by omega) (by omega)]
    have e1 : n / 10 / 100 = n / 1000 := by omega
    have e2 : n / 10 / 10 % 10 = n / 100 % 10 := by omega
    simp [e1, e2]

theorem pad4_list (n : Nat) (h : n ≤ 9999) :
    padStart 4 (toDec n)
      = [48 + n / 1000, 48 + n / 100 % 10, 48 + n / 10 % 10, 48 + n % 10] := by
  by_cases h1 : n < 10
  · rw [toDec_small n h1]
    simp [padStart, List.replicate]
    omega
  · by_cases h2 : n < 100
    · rw [toDec_two n (by omega) (by omega)]
      simp [padStart, List.replicate]
      omega
    · by_cases h3 : n < 1000
      · rw [show toDec n = toDecAux n n from rfl,
          toDecAux_three n n (by omega) (by omega) (by omega)]
        simp [padStart, List.replicate]
        omega
      · rw [show toDec n = toDecAux n n from rfl,
          toDecAux_four n n (by omega) (by omega) (by omega)]
        simp [padStart, List.replicate]

/-- Leap-year rule of the proleptic Gregorian calendar used by JavaScript
`Date`. -/
def isLeapYear (y : Nat) : Bool := (y % 4 == 0 && y % 100 != 0) || y % 400 == 0

/-- Number of days in a month (1-12) of the given year. -/
def daysInMonth (y m : Nat) : Nat :=
  if m = 2 then (if isLeapYear y then 29 else 28)
  else if m = 4 ∨ m = 6 ∨ m = 9 ∨ m = 11 then 30 else 31

/-- Exactly two leading ASCII digits: their value and the remaining input. -/
def take2 : Str → Option (Nat × Str)
  | a :: b :: r => if isDigit a && isDigit b then some (dval a * 10 + dval b, r) else none
  | _ => none

/-- Exactly four leading ASCII digits. -/
def take4 (s : Str) : Option (Nat × Str) :=
  match take2 s with
  | none => none
  | some (hi, r) =>
    match take2 r with
    | none => none
    | some (lo, r2) => some (hi * 100 + lo, r2)

/-- One or two leading ASCII digits, greedy (deterministic in this grammar
because the digits are always followed by a non-digit separator). -/
def take1or2 : Str → Option (Nat × Str)
  | a :: b :: r =>
    if isDigit a then
      (if isDigit b then some (dval a * 10 + dval b, r) else some (dval a, b :: r))
    else none
  | [a] => if isDigit a then some (dval a, []) else none
  | [] => none

/-- The date part of ECMA-262's Date Time String Format with four-digit years:
`YYYY`, `YYYY-MM`, or `YYYY-MM-DD`, with month and day-of-month validated
(leap years included); an omitted month or day defaults to 1. Returns the
components and the unconsumed rest of the input. -/
def parseISODate (s : Str) : Option (Nat × Nat × Nat × Str) :=
  match take4 s with
  | none => none
  | some (y, r1) =>
    match r1 with
    | 45 :: r2 =>
      match take2 r2 with
      | none => none
      | some (mo, r3) =>
        if 1 ≤ mo ∧ mo ≤ 12 then
          match r3 with
          | 45 :: r4 =>
            match take2 r4 with
            | none => none
            | some (d, r5) =>
              if 1 ≤ d ∧ d ≤ daysInMonth y mo then some (y, mo, d, r5) else none
          | _ => some (y, mo, 1, r3)
        else none
    | _ => some (y, 1, 1, r1)

/-- The time part `HH:mm`, `HH:mm:ss`, or `HH:mm:ss.s+` of the Date Time
String Format, after the `T`. Hour 24 denotes end-of-day midnight and is valid
only with zero minutes, seconds, and fraction. Returns the minutes-of-day
(0..1440) and the rest (a potential UTC-offset designator). Seconds and
fraction digits are validated but not returned: with whole-minute offsets
they can never move the civil date. -/
def parseTimePart (s : Str) : Option (Nat × Str) :=
  match take2 s with
  | none => none
  | some (hh, r1) =>
    match r1 with
    | 58 :: r2 =>
      match take2 r2 with
      | none => none
      | some (mm, r3) =>
        if mm ≤ 59 ∧ (hh ≤ 23 ∨ (hh = 24 ∧ mm = 0)) then
          match r3 with
          | 58 :: r4 =>
            match take2 r4 with
            | none => none
            | some (ss, r5) =>
              if ss ≤ 59 ∧ (hh ≤ 23 ∨ ss = 0) then
                match r5 with
                | 46 :: r6 =>
                  if r6.takeWhile isDigit ≠ [] ∧
                      (hh ≤ 23 ∨ ∀ c ∈ r6.takeWhile isDigit, c = 48) then
                    some (hh * 60 + mm, r6.dropWhile isDigit)
                  else none
                | _ => some (hh * 60 + mm, r5)
              else none
          | _ => some (hh * 60 + mm, r3)
        else none
    | _ => none

/-- The minutes of a numeric UTC offset, after the sign and hour digits:
`:mm` or `mm`, which must end the input. -/
def offsetMinutesTail (s : Str) : Option Nat :=
  match s with
  | 58 :: r =>
    (match take2 r with
     | some (om, r2) => if om ≤ 59 ∧ r2 = [] then some om else none
     | none => none)
  | r =>
    match take2 r with
    | some (om, r2) => if om ≤ 59 ∧ r2 = [] then some om else none
    | none => none

/-- The UTC-offset designator ending a date-time string: empty (local time),
`Z` (UTC), or `±HH:mm`/`±HHmm`. `some none` means a valid absent offset;
`some (some o)` a valid explicit offset of `o` minutes; `none` a parse
failure. -/
def parseOffset (s : Str) : Option (Option Int) :=
  match s with
  | [] => some none
  | [90] => some (some 0)
  | 43 :: r =>
    (match take2 r with
     | none => none
     | some (oh, r1) =>
       if oh ≤ 23 then
         match offsetMinutesTail r1 with
         | some om => some (some ((oh * 60 + om : Nat) : Int))
         | none => none
       else none)
  | 45 :: r =>
    (match take2 r with
     | none => none
     | some (oh, r1) =>
       if oh ≤ 23 then
         match offsetMinutesTail r1 with
         | some om => some (some (-((oh * 60 + om : Nat) : Int)))
         | none => none
       else none)
  | _ => none

/-- The result of `new Date(dateStr)` on an accepted string, before the
civil date of the instant is computed: the written calendar components, the
minutes-of-day of the written time (0 for date-only forms), the explicit UTC
offset if one was written (`none` means the string is interpreted in host
local time), and whether the string was a date-only form. -/
structure ParsedDate where
  y : Nat
  mo : Nat
  d : Nat
  mins : Nat
  offset : Option Int
  dateOnly : Bool
deriving DecidableEq

/-- An ECMA-262 Date Time String Format string (four-digit years): a date-only
form, interpreted as UTC midnight, or a date, `T`, time, and optional offset;
a date-time without offset is interpreted in host local time. -/
def parseECMAISO (s : Str) : Option ParsedDate :=
  match parseISODate s with
  | none => none
  | some (y, mo, d, rest) =>
    match rest with
    | [] => some ⟨y, mo, d, 0, some 0, true⟩
    | 84 :: r =>
      (match parseTimePart r with
       | none => none
       | some (mins, r2) =>
         match parseOffset r2 with
         | none => none
         | some off => some ⟨y, mo, d, mins, off, false⟩)
    | _ => none

/-- The `MM/DD/YYYY` form advertised by the source's doc comment
(src/database/event.model.ts:135), month and day written with one or two
digits and validated against the calendar; interpreted as midnight in host
local time. -/
def parseMMDDYYYY (s : Str) : Option ParsedDate :=
  match take1or2 s with
  | none => none
  | some (mo, r1) =>
    match r1 with
    | 47 :: r2 =>
      (match take1or2 r2 with
       | none => none
       | some (d, r3) =>
         match r3 with
         | 47 :: r4 =>
           (match take4 r4 with
            | none => none
            | some (y, r5) =>
              if r5 = [] ∧ 1 ≤ mo ∧ mo ≤ 12 ∧ 1 ≤ d ∧ d ≤ daysInMonth y mo then
                some ⟨y, mo, d, 0, none, false⟩
              else none)
         | _ => none)
    | _ => none

/-- `new Date(dateStr)` as used by `normalizeDate`
(src/database/event.model.ts:138): the formats mandated by ECMA-262's Date
Time String Format with four-digit years (`YYYY`, `YYYY-MM`, `YYYY-MM-DD`,
and the date-time forms with optional seconds, fraction, and `Z`/`±HH:mm`
offset), plus the `MM/DD/YYYY` form the source's comment advertises. `none` is
an Invalid Date (`isNaN(date.getTime())`). Out of the model's scope: the
expanded-year productions `±YYYYYY` (their acceptance depends on the
±8.64e15 time-value clip) and engine legacy extensions beyond `MM/DD/YYYY`
(month names, other separators, lowercase `t`/`z`), which ECMA-262 leaves
implementation-defined. -/
def jsParseDate (s : Str) : Option ParsedDate :=
  match parseECMAISO s with
  | some p => some p
  | none => parseMMDDYYYY s

/-- Error message thrown by `normalizeDate` (src/database/event.model.ts:141). -/
def dateErrMsg : Str := strCodes "Invalid date format. Please provide a valid date."

/-- Leap-year rule for arbitrary (signed) proleptic Gregorian years. -/
def isLeapYearI (y : Int) : Bool := (y % 4 == 0 && y % 100 != 0) || y % 400 == 0

/-- Days in a month of a signed year. -/
def daysInMonthI (y : Int) (m : Nat) : Nat :=
  if m = 2 then (if isLeapYearI y then 29 else 28)
  else if m = 4 ∨ m = 6 ∨ m = 9 ∨ m = 11 then 30 else 31

/-- The civil day after `(y, mo, d)`. -/
def nextDayI (y : Int) (mo d : Nat) : Int × Nat × Nat :=
  if d < daysInMonthI y mo then (y, mo, d + 1)
  else if mo < 12 then (y, mo + 1, 1)
  else (y + 1, 1, 1)

/-- The civil day before `(y, mo, d)`. -/
def prevDayI (y : Int) (mo d : Nat) : Int × Nat × Nat :=
  if 1 < d then (y, mo, d - 1)
  else if 1 < mo then (y, mo - 1, daysInMonthI y (mo - 1))
  else (y - 1, 12, 31)

/-- The UTC calendar date of the parsed instant, for a host whose local clock
is `tz` minutes ahead of UTC: the written time-of-day minus the effective
offset (the explicit one, else `tz`; date-only forms carry offset 0) decides
whether the UTC date is the written day, the day before, or the day after.
One step suffices for every real host offset (`|tz| < 24h`). -/
def utcCivil (tz : Int) (p : ParsedDate) : Int × Nat × Nat :=
  let eff : Int := match p.offset with | some o => o | none => tz
  let total : Int := (p.mins : Int) - eff
  if total < 0 then prevDayI p.y p.mo p.d
  else if 1440 ≤ total then nextDayI p.y p.mo p.d
  else ((p.y : Int), p.mo, p.d)

/-- The year as rendered by `toISOString`: four digits for years 0-9999,
otherwise the expanded form, a sign and six digits. -/
def isoYearStr (y : Int) : Str :=
  if 0 ≤ y ∧ y ≤ 9999 then padStart 4 (toDec y.toNat)
  else if y < 0 then 45 :: padStart 6 (toDec (-y).toNat)
  else 43 :: padStart 6 (toDec y.toNat)

/-- `date.toISOString().split("T")[0]` for a date in years 0-9999: the
zero-padded `YYYY-MM-DD` string. -/
def isoDateStr (y mo d : Nat) : Str :=
  padStart 4 (toDec y) ++ 45 :: (padStart2 (toDec mo) ++ 45 :: padStart2 (toDec d))

/-- `date.toISOString().split("T")[0]` for the UTC date of an arbitrary
instant (expanded-year form outside 0-9999). -/
def isoInstantDate (ymd : Int × Nat × Nat) : Str :=
  isoYearStr ymd.1 ++ 45 :: (padStart2 (toDec ymd.2.1) ++ 45 :: padStart2 (toDec ymd.2.2))

/-- `normalizeDate` from src/database/event.model.ts:137-146: parse the input
with `new Date`, throw the validation error on an Invalid Date, otherwise
return the date part of `toISOString()` — the UTC calendar date of the parsed
instant. `tz` is the host's local-time offset from UTC in minutes, consulted
only for inputs interpreted as local time. -/
def normalizeDate (tz : Int) (s : Str) : Except Str Str :=
  match jsParseDate s with
  | none => Except.error dateErrMsg
  | some p => Except.ok (isoInstantDate (utcCivil tz p))

/-- Shape check for a canonical ISO date string: exactly `DDDD-DD-DD` with
`D` a decimal digit. -/
def isCanonicalDate : Str → Bool
  | [a, b, c, d, 45, e, f, 45, g, h] =>
    isDigit a && isDigit b && isDigit c && isDigit d && isDigit e && isDigit f &&
    isDigit g && isDigit h
  | _ => false

example : normalizeDate 0 (strCodes "2024-02-29") = Except.ok (strCodes "2024-02-29") := by
  decide
example : normalizeDate 0 (strCodes "2023-02-29") = Except.error dateErrMsg := by decide
example : normalizeDate 0 (strCodes "2024-13-01") = Except.error dateErrMsg := by decide
example : normalizeDate 0 (strCodes "hello") = Except.error dateErrMsg := by decide
example : normalizeDate 0 (strCodes "2024-05") = Except.ok (strCodes "2024-05-01") := by
  decide
example : normalizeDate 0 (strCodes "2024") = Except.ok (strCodes "2024-01-01") := by decide
example : normalizeDate 0 (strCodes "05/06/2024") = Except.ok (strCodes "2024-05-06") := by
  decide
example : normalizeDate 60 (strCodes "01/01/2024") = Except.ok (strCodes "2023-12-31") := by
  decide
example : normalizeDate 0 (strCodes "2024-05-06T23:30:00-02:00")
    = Except.ok (strCodes "2024-05-07") := by decide
example : normalizeDate 660 (strCodes "2024-05-06T05:00")
    = Except.ok (strCodes "2024-05-05") := by decide
example : normalizeDate 0 (strCodes "2024-05-06T10:30:15.250Z")
    = Except.ok (strCodes "2024-05-06") := by decide
example : normalizeDate 0 (strCodes "2024-05-06T24:00:00Z")
    = Except.ok (strCodes "2024-05-07") := by decide
example : normalizeDate 0 (strCodes "2024-05-06T24:30:00Z") = Except.error dateErrMsg := by
  decide
example : normalizeDate 0 (strCodes "2024-05-06Z") = Except.error dateErrMsg := by decide
example : isCanonicalDate (strCodes "2024-02-29") = true := by decide

theorem daysInMonth_le (y m : Nat) : daysInMonth y m ≤ 31 := by
  simp only [daysInMonth]
  split
  · split <;> omega
  · split <;> omega

theorem daysInMonthI_le (y : Int) (m : Nat) : daysInMonthI y m ≤ 31 := by
  simp only [daysInMonthI]
  split
  · split <;> omega
  · split <;> omega

theorem daysInMonthI_ge (y : Int) (m : Nat) : 28 ≤ daysInMonthI y m := by
  simp only [daysInMonthI]
  split
  · split <;> omega
  · split <;> omega

theorem take2_le (s r : Str) (v : Nat) (h : take2 s = some (v, r)) : v ≤ 99 := by
  rcases s with _ | ⟨a, _ | ⟨b, t⟩⟩
  · simp [take2] at h
  · simp [take2] at h
  · simp only [take2] at h
    split at h
    · rename_i hd
      simp only [Bool.and_eq_true, isDigit, decide_eq_true_eq] at hd
      simp only [Option.some.injEq, Prod.mk.injEq] at h
      simp only [dval] at h
      omega
    · simp at h

theorem take4_le (s r : Str) (v : Nat) (h : take4 s = some (v, r)) : v ≤ 9999 := by
  unfold take4 at h
  split at h
  · exact absurd h (by simp)
  · rename_i hi r1 heq2
    split at h
    · exact absurd h (by simp)
    · rename_i lo r2 heq3
      simp only [Option.some.injEq, Prod.mk.injEq] at h
      have b1 := take2_le s r1 hi heq2
      have b2 := take2_le r1 r2 lo heq3
      omega

theorem take1or2_le (s r : Str) (v : Nat) (h : take1or2 s = some (v, r)) : v ≤ 99 := by
  rcases s with _ | ⟨a, _ | ⟨b, t⟩⟩
  · simp [take1or2] at h
  · simp only [take1or2] at h
    split at h
    · rename_i hd
      simp only [isDigit, decide_eq_true_eq] at hd
      simp only [Option.some.injEq, Prod.mk.injEq] at h
      simp only [dval] at h
      omega
    · simp at h
  · simp only [take1or2] at h
    split at h
    · rename_i hd
      simp only [isDigit, decide_eq_true_eq] at hd
      split at h <;>
        (rename_i hd2
         simp only [Option.some.injEq, Prod.mk.injEq] at h
         simp only [isDigit, decide_eq_true_eq] at hd2
         simp only [dval] at h
         omega)
    · simp at h

theorem parseISODate_valid (s : Str) (y mo d : Nat) (rest : Str)
    (h : parseISODate s = some (y, mo, d, rest)) :
    y ≤ 9999 ∧ 1 ≤ mo ∧ mo ≤ 12 ∧ 1 ≤ d ∧ d ≤ 31 := by
  unfold parseISODate at h
  split at h
  · exact absurd h (by simp)
  · rename_i y1 r1 heq4
    have hy1 := take4_le s r1 y1 heq4
    split at h
    · rename_i r2
      split at h
      · exact absurd h (by simp)
      · rename_i mo1 r3 heq2
        split at h
        · rename_i hmo1
          split at h
          · rename_i r4
            split at h
            · exact absurd h (by simp)
            · rename_i d1 r5 heq3
              split at h
              · rename_i hd1
                simp only [Option.some.injEq, Prod.mk.injEq] at h
                obtain ⟨rfl, rfl, rfl, -⟩ := h
                have hdm := daysInMonth_le y1 mo1
                omega
              · exact absurd h (by simp)
          · simp only [Option.some.injEq, Prod.mk.injEq] at h
            obtain ⟨rfl, rfl, rfl, -⟩ := h
            omega
        · exact absurd h (by simp)
    · simp only [Option.some.injEq, Prod.mk.injEq] at h
      obtain ⟨rfl, rfl, rfl, -⟩ := h
      omega

theorem parseTimePart_le (s r : Str) (mins : Nat) (h : parseTimePart s = some (mins, r)) :
    mins ≤ 1440 := by
  unfold parseTimePart at h
  split at h
  · exact absurd h (by simp)
  · rename_i hh r1 heq1
    split at h
    · rename_i r2
      split at h
      · exact absurd h (by simp)
      · rename_i mm r3 heq2
        split at h
        · rename_i hcond
          split at h
          · rename_i r4
            split at h
            · exact absurd h (by simp)
            · rename_i ss r5 heq3
              split at h
              · rename_i hss
                split at h
                · rename_i r6
                  split at h
                  · simp only [Option.some.injEq, Prod.mk.injEq] at h
                    omega
                  · exact absurd h (by simp)
                · simp only [Option.some.injEq, Prod.mk.injEq] at h
                  omega
              · exact absurd h (by simp)
          · simp only [Option.some.injEq, Prod.mk.injEq] at h
            omega
        · exact absurd h (by simp)
    · exact absurd h (by simp)

theorem parseMMDDYYYY_valid (s : Str) (p : ParsedDate) (h : parseMMDDYYYY s = some p) :
    p.y ≤ 9999 ∧ 1 ≤ p.mo ∧ p.mo ≤ 12 ∧ 1 ≤ p.d ∧ p.d ≤ 31 ∧ p.mins = 0
      ∧ p.offset = none ∧ p.dateOnly = false := by
  unfold parseMMDDYYYY at h
  split at h
  · exact absurd h (by simp)
  · rename_i mo1 r1 heq1
    split at h
    · rename_i r2
      split at h
      · exact absurd h (by simp)
      · rename_i d1 r3 heq2
        split at h
        · rename_i r4
          split at h
          · exact absurd h (by simp)
          · rename_i y1 r5 heq3
            split at h
            · rename_i hcond
              simp only [Option.some.injEq] at h
              subst h
              have hy1 := take4_le r4 r5 y1 heq3
              have hdm := daysInMonth_le y1 mo1
              dsimp only
              exact ⟨hy1, by omega, by omega, by omega, by omega, rfl, rfl, rfl⟩
            · exact absurd h (by simp)
        · exact absurd h (by simp)
    · exact absurd h (by simp)

theorem parseECMAISO_valid (s : Str) (p : ParsedDate) (h : parseECMAISO s = some p) :
    p.y ≤ 9999 ∧ 1 ≤ p.mo ∧ p.mo ≤ 12 ∧ 1 ≤ p.d ∧ p.d ≤ 31 ∧ p.mins ≤ 1440
      ∧ (p.dateOnly = true → p.mins = 0 ∧ p.offset = some 0) := by
  unfold parseECMAISO at h
  split at h
  · exact absurd h (by simp)
  · rename_i y1 mo1 d1 rest heq1
    have hb := parseISODate_valid s y1 mo1 d1 rest heq1
    split at h
    · simp only [Option.some.injEq] at h
      subst h
      dsimp only
      exact ⟨hb.1, hb.2.1, hb.2.2.1, hb.2.2.2.1, hb.2.2.2.2, by omega, fun _ => ⟨rfl, rfl⟩⟩
    · rename_i r
      split at h
      · exact absurd h (by simp)
      · rename_i mins1 r2 heq2
        split at h
        · exact absurd h (by simp)
        · rename_i off heq3
          simp only [Option.some.injEq] at h
          subst h
          have hm := parseTimePart_le r r2 mins1 heq2
          dsimp only
          exact ⟨hb.1, hb.2.1, hb.2.2.1, hb.2.2.2.1, hb.2.2.2.2, hm,
            fun hfalse => by simp at hfalse⟩
    · exact absurd h (by simp)

theorem jsParseDate_valid (s : Str) (p : ParsedDate) (h : jsParseDate s = some p) :
    p.y ≤ 9999 ∧ 1 ≤ p.mo ∧ p.mo ≤ 12 ∧ 1 ≤ p.d ∧ p.d ≤ 31 ∧ p.mins ≤ 1440
      ∧ (p.dateOnly = true → p.mins = 0 ∧ p.offset = some 0) := by
  unfold jsParseDate at h
  split at h
  · rename_i q heq1
    simp only [Option.some.injEq] at h
    subst h
    exact parseECMAISO_valid s q heq1
  · rename_i heq1
    obtain ⟨b1, b2, b3, b4, b5, b6, -, b8⟩ := parseMMDDYYYY_valid s p h
    exact ⟨b1, b2, b3, b4, b5, by omega, fun hdo => by rw [b8] at hdo; cases hdo⟩

theorem utcCivil_bounds (tz : Int) (p : ParsedDate)
    (hmo1 : 1 ≤ p.mo) (hmo2 : p.mo ≤ 12) (hd1 : 1 ≤ p.d) (hd2 : p.d ≤ 31) :
    1 ≤ (utcCivil tz p).2.1 ∧ (utcCivil tz p).2.1 ≤ 12
  ∧ 1 ≤ (utcCivil tz p).2.2 ∧ (utcCivil tz p).2.2 ≤ 31 := by
  unfold utcCivil
  try dsimp only
  split
  · unfold prevDayI
    split
    · try try dsimp only
      omega
    · split
      · try dsimp only
        have hle := daysInMonthI_le (p.y : Int) (p.mo - 1)
        have hge := daysInMonthI_ge (p.y : Int) (p.mo - 1)
        omega
      · try dsimp only
        omega
  · split
    · unfold nextDayI
      split
      · try dsimp only
        have hle := daysInMonthI_le (p.y : Int) p.mo
        omega
      · split
        · try dsimp only
          omega
        · try dsimp only
          omega
    · try try dsimp only
      omega

theorem isoDateStr_canonical (y mo d : Nat) (hy : y ≤ 9999) (hmo : mo ≤ 99) (hd : d ≤ 99) :
    isCanonicalDate (isoDateStr y mo d) = true := by
  rw [isoDateStr, pad4_list y hy, pad2_list mo hmo, pad2_list d hd]
  simp only [List.cons_append, List.nil_append]
  simp only [isCanonicalDate, isDigit, Bool.and_eq_true, decide_eq_true_eq]
  omega

theorem isoInstantDate_canonical (yi : Int) (mo d : Nat)
    (hy1 : 0 ≤ yi) (hy2 : yi ≤ 9999) (hmo : mo ≤ 99) (hd : d ≤ 99) :
    isCanonicalDate (isoInstantDate (yi, mo, d)) = true := by
  have hyn : yi.toNat ≤ 9999 := by omega
  simp only [isoInstantDate, isoYearStr]
  try dsimp only
  rw [if_pos ⟨hy1, hy2⟩, pad4_list yi.toNat hyn, pad2_list mo hmo, pad2_list d hd]
  simp only [List.cons_append, List.nil_append]
  simp only [isCanonicalDate, isDigit, Bool.and_eq_true, decide_eq_true_eq]
  omega

theorem isoInstantDate_natCast (y mo d : Nat) (hy : y ≤ 9999) :
    isoInstantDate ((y : Int), mo, d) = isoDateStr y mo d := by
  simp only [isoInstantDate, isoYearStr, isoDateStr]
  try dsimp only
  rw [if_pos ⟨by omega, by omega⟩]
  simp [Int.toNat_natCast]

/-- C8 counterexample: two accepted inputs whose normalization is not the
canonical `YYYY-MM-DD` rendering of the written calendar date. An explicit
offset can push the UTC date past year 9999, where `toISOString` switches to
the expanded six-digit year form; and a local-time `MM/DD/YYYY` input on a
host east of UTC (here UTC+1) normalizes to the previous UTC day rather than
the written date. -/
theorem normalizeDate_noncanonical :
    normalizeDate 0 (strCodes "9999-12-31T23:00:00-02:00")
        = Except.ok (strCodes "+010000-01-01")
  ∧ isCanonicalDate (strCodes "+010000-01-01") = false
  ∧ normalizeDate 60 (strCodes "01/01/2024") = Except.ok (strCodes "2023-12-31") := by
  decide

/-- C8 (amended): `normalizeDate` rejects with the validation error exactly
the inputs `new Date` cannot parse; an accepted input normalizes to the date
part of `toISOString()` — the UTC calendar date of the parsed instant — which
is canonical zero-padded `YYYY-MM-DD` whenever that UTC year lies in 0-9999,
and date-only inputs (always interpreted as UTC midnight) normalize to
exactly the canonical rendering of their written components. -/
theorem normalizeDate_utc_canonical (tz : Int) (s : Str)
    (_htz1 : -1439 ≤ tz) (_htz2 : tz ≤ 1439) :
    (jsParseDate s = none ∧ normalizeDate tz s = Except.error dateErrMsg)
  ∨ (∃ p, jsParseDate s = some p
      ∧ normalizeDate tz s = Except.ok (isoInstantDate (utcCivil tz p))
      ∧ (0 ≤ (utcCivil tz p).1 → (utcCivil tz p).1 ≤ 9999 →
          isCanonicalDate (isoInstantDate (utcCivil tz p)) = true)
      ∧ (p.dateOnly = true →
          normalizeDate tz s = Except.ok (isoDateStr p.y p.mo p.d)
          ∧ isCanonicalDate (isoDateStr p.y p.mo p.d) = true)) := by
  cases hp : jsParseDate s with
  | none => exact Or.inl ⟨rfl, by simp [normalizeDate, hp]⟩
  | some p =>
    obtain ⟨hy, hmo1, hmo2, hd1, hd2, hmins, hdo⟩ := jsParseDate_valid s p hp
    refine Or.inr ⟨p, rfl, by simp [normalizeDate, hp], ?_, ?_⟩
    · intro hy1 hy2
      obtain ⟨hb1, hb2, hb3, hb4⟩ := utcCivil_bounds tz p hmo1 hmo2 hd1 hd2
      rcases hu : utcCivil tz p with ⟨yi, mo1, d1⟩
      rw [hu] at hb1 hb2 hb3 hb4 hy1 hy2
      try dsimp only at hb1 hb2 hb3 hb4 hy1 hy2
      exact isoInstantDate_canonical yi mo1 d1 hy1 hy2 (by omega) (by omega)
    · intro hdo'
      obtain ⟨hm0, hoff⟩ := hdo hdo'
      have hu : utcCivil tz p = ((p.y : Int), p.mo, p.d) := by
        unfold utcCivil
        rw [hoff, hm0]
        norm_num
      refine ⟨?_, isoDateStr_canonical p.y p.mo p.d hy (by omega) (by omega)⟩
      rw [show normalizeDate tz s = Except.ok (isoInstantDate (utcCivil tz p))
          from by simp [normalizeDate, hp], hu,
        isoInstantDate_natCast p.y p.mo p.d hy]

/-- C8 witness: the reviewer-visible date-only forms normalize canonically,
via `normalizeDate_utc_canonical` at concrete inputs. -/
theorem normalizeDate_utc_canonical_witness :
    normalizeDate 0 (strCodes "2024-05") = Except.ok (strCodes "2024-05-01") := by
  have h := normalizeDate_utc_canonical 0 (strCodes "2024-05") (by omega) (by omega)
  rcases h with ⟨h1, -⟩ | ⟨p, hp, -, -, hdo⟩
  · exact absurd h1 (by decide)
  · have hj : jsParseDate (strCodes "2024-05") = some ⟨2024, 5, 1, 0, some 0, true⟩ := by
      decide
    rw [hj] at hp
    have hpv : p = ⟨2024, 5, 1, 0, some 0, true⟩ := (Option.some.inj hp).symm
    subst hpv
    have h2 := hdo rfl
    rw [h2.1]
    decide

/-- The fields of an Event document that the pre-save hook
(src/database/event.model.ts:192-217) reads or writes. -/
structure EventDoc where
  title : Str
  slug : Str
  date : Str
  time : Str
deriving DecidableEq

/-- The `this.isModified(...)` flags the hook consults: whether title, date,
time were modified in the current save. -/
structure ModFlags where
  title : Bool
  date : Bool
  time : Bool
deriving DecidableEq

/-- The `EventSchema.pre("save")` hook from src/database/event.model.ts:192-217:
if the title was modified, recompute the slug; if the date was modified,
normalize it (aborting the save with the thrown error on failure); if the time
was modified, normalize it likewise; then continue with the updated document.
`tz` is the host local-time offset consulted by date normalization. -/
def eventPreSave (tz : Int) (doc : EventDoc) (m : ModFlags) : Except Str EventDoc :=
  let d1 := if m.title then { doc with slug := generateSlug doc.title } else doc
  match (if m.date then normalizeDate tz d1.date else Except.ok d1.date) with
  | Except.error e => Except.error e
  | Except.ok dd =>
    let d2 := { d1 with date := dd }
    match (if m.time then normalizeTime d2.time else Except.ok d2.time) with
    | Except.error e => Except.error e
    | Except.ok tt => Except.ok { d2 with time := tt }

/-- C7: each pre-save transformation runs only when its source field was
modified: an unmodified field is returned exactly as stored (in particular an
unchanged title never recomputes the slug), and a modified field is the result
of its transformation applied to the stored value. The title itself is never
rewritten by the hook. -/
theorem eventPreSave_frame (tz : Int) (doc doc' : EventDoc) (m : ModFlags)
    (h : eventPreSave tz doc m = Except.ok doc') :
    doc'.title = doc.title
  ∧ (m.title = false → doc'.slug = doc.slug)
  ∧ (m.date = false → doc'.date = doc.date)
  ∧ (m.time = false → doc'.time = doc.time)
  ∧ (m.title = true → doc'.slug = generateSlug doc.title)
  ∧ (m.date = true → normalizeDate tz doc.date = Except.ok doc'.date)
  ∧ (m.time = true → normalizeTime doc.time = Except.ok doc'.time) := by
  obtain ⟨mt, md, mtime⟩ := m
  cases mt <;> cases md <;> cases mtime <;>
    simp only [eventPreSave, if_true, if_false] at h <;>
    (repeat' split at h) <;>
    simp_all <;>
    (try subst doc') <;>
    simp_all

/-- C7 witness: a save with only the title flagged as modified recomputes the
slug and leaves the stored date untouched. -/
theorem eventPreSave_frame_witness :
    (EventDoc.mk (strCodes "My Event") (strCodes "my-event") (strCodes "2024-01-02")
        (strCodes "09:30")).date = strCodes "2024-01-02"
  ∧ (EventDoc.mk (strCodes "My Event") (strCodes "my-event") (strCodes "2024-01-02")
        (strCodes "09:30")).slug = generateSlug (strCodes "My Event") := by
  have h := eventPreSave_frame 0
    ⟨strCodes "My Event", strCodes "stale", strCodes "2024-01-02", strCodes "09:30"⟩
    ⟨strCodes "My Event", strCodes "my-event", strCodes "2024-01-02", strCodes "09:30"⟩
    ⟨true, false, false⟩ (by decide)
  exact ⟨h.2.2.1 rfl, h.2.2.2.2.1 rfl⟩

/-- Prefix of the referential-integrity error message thrown by the Booking
pre-save hook (src/database/booking.model.ts:61-63). -/
def bookingErrPre : Str := strCodes "Event with ID "

/-- Suffix of the referential-integrity error message. -/
def bookingErrPost : Str :=
  strCodes " does not exist. Cannot create booking for non-existent event."

/-- The full error message, naming the missing event id. -/
def bookingErrMsg (eid : Nat) : Str := bookingErrPre ++ toDec eid ++ bookingErrPost

/-- Result of running the Booking pre-save hook: the hook's outcome together
with the list of event ids looked up in the Event collection
(`Event.exists({ _id: ... })` calls), which records whether the existence
check was performed. -/
structure PreSaveOutcome where
  result : Except Str Unit
  eventReads : List Nat
deriving DecidableEq

/-- The `BookingSchema.pre("save")` hook from
src/database/booking.model.ts:50-71: only when the eventId field was modified,
look the referenced id up in the Event collection and reject the save with the
referential-integrity error if it does not exist; otherwise (and when the
field was not modified) continue. `events` is the set of event ids present in
storage at save time. -/
def bookingPreSave (events : List Nat) (eventIdModified : Bool) (eventId : Nat) :
    PreSaveOutcome :=
  if eventIdModified then
    if eventId ∈ events then ⟨Except.ok (), [eventId]⟩
    else ⟨Except.error (bookingErrMsg eventId), [eventId]⟩
  else ⟨Except.ok (), []⟩

/-- A Booking document: the event reference and the email. -/
structure BookingDoc where
  eventId : Nat
  email : Str
deriving DecidableEq

/-- The stored collections touched by a Booking save. -/
structure DB where
  events : List Nat
  bookings : List BookingDoc
deriving DecidableEq

/-- A Booking save: run the pre-save hook; if it rejects, the error propagates
and nothing is written; otherwise the booking is persisted. -/
def saveBooking (db : DB) (b : BookingDoc) (eventIdModified : Bool) :
    DB × Except Str Unit :=
  match (bookingPreSave db.events eventIdModified b.eventId).result with
  | Except.error e => (db, Except.error e)
  | Except.ok _ => ({ db with bookings := b :: db.bookings }, Except.ok ())

/-- C4: saving a Booking whose modified event reference does not exist is
rejected with an error that names the missing reference, and the database is
left unchanged (no write); when the event-reference field was not modified,
no existence lookup is performed at all. -/
theorem bookingSave_missing_event_rejected (db : DB) (b : BookingDoc)
    (h : b.eventId ∉ db.events) :
    saveBooking db b true = (db, Except.error (bookingErrMsg b.eventId))
  ∧ (∃ pre post, bookingErrMsg b.eventId = pre ++ toDec b.eventId ++ post)
  ∧ (bookingPreSave db.events false b.eventId).eventReads = [] := by
  refine ⟨?_, ⟨bookingErrPre, bookingErrPost, rfl⟩, rfl⟩
  simp [saveBooking, bookingPreSave, h]

/-- C4 witness: booking event id 7 against an empty Event collection fails
with the error naming id 7 and writes nothing. -/
theorem bookingSave_missing_event_rejected_witness :
    saveBooking ⟨[], []⟩ ⟨7, strCodes "a@b.co"⟩ true
      = (⟨[], []⟩, Except.error (bookingErrMsg 7)) :=
  (bookingSave_missing_event_rejected ⟨[], []⟩ ⟨7, strCodes "a@b.co"⟩ (by decide)).1

/-- What a caller of `connectDB` observes: the resolved connection handle, or
the propagated connection error. -/
inductive Outcome where
  | ok (c : Nat)
  | err
deriving DecidableEq

/-- The process-wide state of the connection cache of src/lib/mongodb.ts:
`conn`/`promise` model `cached.conn`/`cached.promise` (attempts and
connections are identified by numbers); `inflight` is the set of
connection-establishment operations started but not yet settled; `nextId`
supplies fresh attempt identities; `waiters` are the callers suspended on
`await cached.promise`, tagged with the attempt they await; `results` are the
outcomes already delivered to callers. -/
structure CState where
  conn : Option Nat
  promise : Option Nat
  inflight : List Nat
  nextId : Nat
  waiters : List (Nat × Nat)
  results : List (Nat × Outcome)
deriving DecidableEq

/-- Events of the cache's execution: a caller `k` runs the synchronous body
of `connectDB` up to its `await`; an in-flight attempt resolves with
connection `c`; an in-flight attempt fails. -/
inductive Ev where
  | call (k : Nat)
  | resolve (a c : Nat)
  | fail (a : Nat)
deriving DecidableEq

/-- One step of `connectDB` (src/lib/mongodb.ts:69-116). A call returns the
cached connection immediately when present; otherwise it joins the pending
promise when one exists; otherwise it starts a fresh attempt, stores it in
`cached.promise`, and awaits it. Resolution of an attempt delivers the same
connection to every waiter on it and caches it (`cached.conn = await
cached.promise`). Failure runs the `.catch` handler: it clears
`cached.promise` and rejects every waiter; no retry is started. -/
def step (s : CState) (e : Ev) : CState :=
  match e with
  | .call k =>
    match s.conn with
    | some c => { s with results := (k, .ok c) :: s.results }
    | none =>
      match s.promise with
      | some a => { s with waiters := (k, a) :: s.waiters }
      | none =>
        { s with promise := some s.nextId
               , inflight := s.nextId :: s.inflight
               , nextId := s.nextId + 1
               , waiters := (k, s.nextId) :: s.waiters }
  | .resolve a c =>
    if a ∈ s.inflight then
      { s with conn := some c
             , inflight := s.inflight.erase a
             , waiters := s.waiters.filter (fun w => !(w.2 == a))
             , results := (s.waiters.filter (fun w => w.2 == a)).map
                 (fun w => (w.1, Outcome.ok c)) ++ s.results }
    else s
  | .fail a =>
    if a ∈ s.inflight then
      { s with promise := none
             , inflight := s.inflight.erase a
             , waiters := s.waiters.filter (fun w => !(w.2 == a))
             , results := (s.waiters.filter (fun w => w.2 == a)).map
                 (fun w => (w.1, Outcome.err)) ++ s.results }
    else s

/-- The state at module load: `{ conn: null, promise: null }`. -/
def initState : CState := ⟨none, none, [], 0, [], []⟩

/-- The state reached after a sequence of events from module load. -/
def run (es : List Ev) : CState := es.foldl step initState

/-- Cache invariant: with no pending promise nothing is in flight, and a
pending promise has at most its own attempt in flight. -/
def CacheInv (s : CState) : Prop :=
  (s.promise = none → s.inflight = [])
  ∧ (∀ a, s.promise = some a → s.inflight = [] ∨ s.inflight = [a])

theorem cacheInv_init : CacheInv initState := by
  constructor
  · intro _
    rfl
  · intro a h
    exact Or.inl rfl

theorem cacheInv_step (s : CState) (e : Ev) (h : CacheInv s) : CacheInv (step s e) := by
  obtain ⟨h1, h2⟩ := h
  cases e with
  | call k =>
    cases hc : s.conn with
    | some c =>
      simp only [step, hc]
      exact ⟨h1, h2⟩
    | none =>
      cases hp : s.promise with
      | some a =>
        simp only [step, hc, hp]
        constructor
        · intro hh
          simp at hh
        · intro a' ha'
          have ha2 : a = a' := by simpa using ha'
          subst ha2
          simpa using h2 a hp
      | none =>
        simp only [step, hc, hp]
        constructor
        · intro hh
          simp at hh
        · intro a' ha'
          have ha2 : s.nextId = a' := by simpa using ha'
          subst ha2
          simp [h1 hp]
  | resolve a c =>
    by_cases hin : a ∈ s.inflight
    · simp only [step, if_pos hin]
      constructor
      · intro _
        cases hp : s.promise with
        | none =>
          rw [h1 hp] at hin
          simp at hin
        | some a' =>
          rcases h2 a' hp with he | he
          · rw [he] at hin
            simp at hin
          · rw [he] at hin ⊢
            simp at hin
            subst hin
            simp
      · intro a' _
        cases hp : s.promise with
        | none =>
          rw [h1 hp] at hin
          simp at hin
        | some a'' =>
          rcases h2 a'' hp with he | he
          · rw [he] at hin
            simp at hin
          · rw [he] at hin ⊢
            simp at hin
            subst hin
            simp
    · simp only [step, if_neg hin]
      exact ⟨h1, h2⟩
  | fail a =>
    by_cases hin : a ∈ s.inflight
    · simp only [step, if_pos hin]
      constructor
      · intro _
        cases hp : s.promise with
        | none =>
          rw [h1 hp] at hin
          simp at hin
        | some a'' =>
          rcases h2 a'' hp with he | he
          · rw [he] at hin
            simp at hin
          · rw [he] at hin ⊢
            simp at hin
            subst hin
            simp
      · intro a' ha'
        simp at ha'
    · simp only [step, if_neg hin]
      exact ⟨h1, h2⟩

theorem cacheInv_run (es : List Ev) : CacheInv (run es) := by
  induction es using List.reverseRecOn with
  | nil => exact cacheInv_init
  | append_singleton es e ih =>
    rw [run, List.foldl_append]
    exact cacheInv_step _ e ih

/-- C5: in every reachable state at most one connection-establishment
operation is in flight; a call made while the connection is cached returns it
without starting anything; a call made while an attempt is pending joins that
same attempt as a waiter; and when an attempt resolves, every caller waiting
on it receives the same resolved connection handle. -/
theorem connectDB_single_inflight (es : List Ev) :
    (run es).inflight.length ≤ 1
  ∧ (∀ k c, (run es).conn = some c →
      step (run es) (Ev.call k)
        = { run es with results := (k, Outcome.ok c) :: (run es).results })
  ∧ (∀ k a, (run es).conn = none → (run es).promise = some a →
      step (run es) (Ev.call k) = { run es with waiters := (k, a) :: (run es).waiters })
  ∧ (∀ a c k, a ∈ (run es).inflight → (k, a) ∈ (run es).waiters →
      (k, Outcome.ok c) ∈ (step (run es) (Ev.resolve a c)).results) := by
  obtain ⟨h1, h2⟩ := cacheInv_run es
  refine ⟨?_, ?_, ?_, ?_⟩
  · cases hp : (run es).promise with
    | none => simp [h1 hp]
    | some a => rcases h2 a hp with he | he <;> simp [he]
  · intro k c hc
    simp [step, hc]
  · intro k a hc hp
    simp [step, hc, hp]
  · intro a c k hin hw
    simp only [step, if_pos hin]
    refine List.mem_append.mpr (Or.inl ?_)
    simp only [List.mem_map]
    exact ⟨(k, a), by simp [List.mem_filter, hw], rfl⟩

/-- C6: when the pending attempt fails, the pending slot is cleared, nothing
remains in flight (no internal retry), every caller awaiting the attempt
receives the error, and a subsequent call starts a fresh attempt — the cache
is never permanently poisoned. -/
theorem connectDB_failure_recovery (es : List Ev) (a k : Nat)
    (hp : (run es).promise = some a) (hc : (run es).conn = none)
    (hin : a ∈ (run es).inflight) :
    (step (run es) (Ev.fail a)).promise = none
  ∧ (step (run es) (Ev.fail a)).inflight = []
  ∧ (step (run es) (Ev.fail a)).conn = none
  ∧ (∀ j, (j, a) ∈ (run es).waiters →
      (j, Outcome.err) ∈ (step (run es) (Ev.fail a)).results)
  ∧ (step (step (run es) (Ev.fail a)) (Ev.call k)).promise
      = some (step (run es) (Ev.fail a)).nextId
  ∧ (step (step (run es) (Ev.fail a)) (Ev.call k)).inflight
      = [(step (run es) (Ev.fail a)).nextId] := by
  obtain ⟨h1, h2⟩ := cacheInv_run es
  have hsingle : (run es).inflight = [a] := by
    rcases h2 a hp with he | he
    · rw [he] at hin
      simp at hin
    · exact he
  have herase : (run es).inflight.erase a = [] := by
    rw [hsingle]
    simp
  refine ⟨?_, ?_, ?_, ?_, ?_, ?_⟩
  · simp [step, hin]
  · simp [step, hin, herase]
  · simp [step, hin, hc]
  · intro j hw
    simp only [step, if_pos hin]
    refine List.mem_append.mpr (Or.inl ?_)
    simp only [List.mem_map]
    exact ⟨(j, a), by simp [List.mem_filter, hw], rfl⟩
  · simp [step, hin, hc]
  · simp [step, hin, hc, herase]

/-- C5 witness: after a call and a successful resolve, a second call returns
the cached handle; and the original waiter received that same handle. -/
theorem connectDB_single_inflight_witness :
    step (run [Ev.call 0, Ev.resolve 0 5]) (Ev.call 1)
      = { run [Ev.call 0, Ev.resolve 0 5] with
          results := (1, Outcome.ok 5) :: (run [Ev.call 0, Ev.resolve 0 5]).results }
  ∧ (0, Outcome.ok 5) ∈ (step (run [Ev.call 0]) (Ev.resolve 0 5)).results :=
  ⟨(connectDB_single_inflight [Ev.call 0, Ev.resolve 0 5]).2.1 1 5 rfl,
   (connectDB_single_inflight [Ev.call 0]).2.2.2 0 5 0 (by decide) (by decide)⟩

/-- C6 witness: after one call whose attempt fails, the pending slot is
cleared and the next call starts a fresh attempt. -/
theorem connectDB_failure_recovery_witness :
    (step (run [Ev.call 0]) (Ev.fail 0)).promise = none
  ∧ (step (step (run [Ev.call 0]) (Ev.fail 0)) (Ev.call 1)).inflight
      = [(step (run [Ev.call 0]) (Ev.fail 0)).nextId] := by
  have h := connectDB_failure_recovery [Ev.call 0] 0 1 rfl rfl (by decide)
  exact ⟨h.1, h.2.2.2.2.2⟩

/-- The error message thrown at module load when MONGODB_URI is missing
(src/lib/mongodb.ts:13-17). -/
def uriErrorMsg : Str := strCodes "Please define the MONGODB_URI environment variable inside .env"

/-- Module initialization of src/lib/mongodb.ts:7-17: read
`process.env.MONGODB_URI` (absent or empty is falsy) and throw before anything
else in the module — including `connectDB` — is defined. On success the module
exports `connectDB` closed over the validated connection string; the
environment is never consulted again at call time (`run` takes no
environment), so a missing string is a fatal load-time error, not a retryable
runtime condition. -/
def mongodbModuleInit (env : Option Str) : Except Str Str :=
  match env with
  | none => Except.error uriErrorMsg
  | some uri => if uri = [] then Except.error uriErrorMsg else Except.ok uri

/-- C9: when the connection string is absent from the environment (or empty,
which is equally falsy), module initialization throws the fatal error, so no
`connectDB` export ever becomes available. -/
theorem moduleInit_requires_uri (env : Option Str)
    (h : env = none ∨ env = some []) :
    mongodbModuleInit env = Except.error uriErrorMsg
  ∧ ∀ uri, mongodbModuleInit env ≠ Except.ok uri := by
  have he : mongodbModuleInit env = Except.error uriErrorMsg := by
    rcases h with rfl | rfl <;> simp [mongodbModuleInit]
  refine ⟨he, fun uri hu => ?_⟩
  rw [he] at hu
  cases hu

/-- C9 witness: an absent MONGODB_URI fails module load with the fatal error. -/
theorem moduleInit_requires_uri_witness :
    mongodbModuleInit none = Except.error uriErrorMsg :=
  (moduleInit_requires_uri none (Or.inl rfl)).1
